import Mathlib

/-!
# Verification of the DocumentDB core against its specification

A shallow embedding of the data model and operations of the
`documentdb_with_comment` repository (the pg_documentdb extension headers),
with theorems settling the frozen claims about the BSON path tree,
the aggregation pipeline compiler, the cursor subsystem, the index
access-method registry and retryable writes.

Definitions are translated from the C source under `src/` where the code is
present; where only declarations exist in the repository, the behaviour is
modelled from the specification (each such definition says so in its doc
comment).
-/

namespace DocumentDB

/-! ## Node types of the BSON path tree
    From `src/pg_documentdb/include/aggregation/bson_tree_common.h`. -/

/-- `LEAF_NODE_BASE` from bson_tree_common.h: node type values with this bit
set are leaf nodes. -/
def LEAF_NODE_BASE : Nat := 0x80

/-- The `NodeType` enum from bson_tree_common.h. -/
inductive NodeType where
  | None
  | Intermediate
  | LeafIncluded
  | LeafExcluded
  | LeafField
  | LeafWithArrayField
  | LeafFieldWithContext
deriving DecidableEq, Repr

/-- The numeric value of each `NodeType` constant, as assigned in
bson_tree_common.h (`NodeType_None = 0`, `NodeType_Intermediate = 0x1`,
leaves start at `LEAF_NODE_BASE`). -/
def NodeType.val : NodeType → Nat
  | .None => 0
  | .Intermediate => 0x1
  | .LeafIncluded => LEAF_NODE_BASE
  | .LeafExcluded => LEAF_NODE_BASE + 0x1
  | .LeafField => LEAF_NODE_BASE + 0x2
  | .LeafWithArrayField => LEAF_NODE_BASE + 0x3
  | .LeafFieldWithContext => LEAF_NODE_BASE + 0x4

/-- The macro `NodeType_IsLeaf(x) ((x & LEAF_NODE_BASE) != 0)` from
bson_tree_common.h. -/
def NodeType_IsLeaf (x : NodeType) : Bool :=
  (Nat.land x.val LEAF_NODE_BASE) != 0

instance : Fintype NodeType where
  elems := {NodeType.None, NodeType.Intermediate, NodeType.LeafIncluded,
            NodeType.LeafExcluded, NodeType.LeafField,
            NodeType.LeafWithArrayField, NodeType.LeafFieldWithContext}
  complete := by intro x; cases x <;> decide

/-! ## The aggregation `Stage` enum
    From `src/pg_documentdb/include/aggregation/bson_aggregation_pipeline_private.h`.
    Constructor order and numbering follow the C enum: `Stage_Invalid = 0`,
    `Stage_Internal_InhibitOptimization = 1`, the public MongoDB stages from
    `Stage_AddFields = 10` onwards, then the custom/internal stages
    `Stage_InverseMatch = 100` and `Stage_LookupUnwind`. -/

inductive Stage where
  | Invalid
  | Internal_InhibitOptimization
  | AddFields        -- $addFields
  | Bucket           -- $bucket
  | BucketAuto       -- $bucketAuto
  | ChangeStream     -- $changeStream
  | CollStats        -- $collStats
  | Count            -- $count
  | CurrentOp        -- $currentOp
  | Densify          -- $densify
  | Documents        -- $documents
  | Facet            -- $facet
  | Fill             -- $fill
  | GeoNear          -- $geoNear
  | GraphLookup      -- $graphLookup
  | Group            -- $group
  | IndexStats       -- $indexStats
  | Limit            -- $limit
  | ListLocalSessions -- $listLocalSessions
  | ListSessions     -- $listSessions
  | Lookup           -- $lookup
  | Match            -- $match
  | Merge            -- $merge
  | Out              -- $out
  | Project          -- $project
  | Redact           -- $redact
  | ReplaceRoot      -- $replaceRoot
  | ReplaceWith      -- $replaceWith
  | Sample           -- $sample
  | Search           -- $search
  | SearchMeta       -- $searchMeta
  | Set              -- $set
  | SetWindowFields  -- $setWindowFields
  | Skip             -- $skip
  | Sort             -- $sort
  | SortByCount      -- $sortByCount
  | UnionWith        -- $unionWith
  | Unset            -- $unset
  | Unwind           -- $unwind
  | VectorSearch     -- $vectorSearch
  | InverseMatch     -- $inverseMatch (DocumentDB custom stage)
  | LookupUnwind     -- fused $lookup + $unwind (internal optimization stage)
deriving DecidableEq, Repr

/-- Numeric value of each `Stage` enum constant as assigned in the C header. -/
def Stage.val : Stage → Nat
  | .Invalid => 0
  | .Internal_InhibitOptimization => 1
  | .AddFields => 10
  | .Bucket => 11
  | .BucketAuto => 12
  | .ChangeStream => 13
  | .CollStats => 14
  | .Count => 15
  | .CurrentOp => 16
  | .Densify => 17
  | .Documents => 18
  | .Facet => 19
  | .Fill => 20
  | .GeoNear => 21
  | .GraphLookup => 22
  | .Group => 23
  | .IndexStats => 24
  | .Limit => 25
  | .ListLocalSessions => 26
  | .ListSessions => 27
  | .Lookup => 28
  | .Match => 29
  | .Merge => 30
  | .Out => 31
  | .Project => 32
  | .Redact => 33
  | .ReplaceRoot => 34
  | .ReplaceWith => 35
  | .Sample => 36
  | .Search => 37
  | .SearchMeta => 38
  | .Set => 39
  | .SetWindowFields => 40
  | .Skip => 41
  | .Sort => 42
  | .SortByCount => 43
  | .UnionWith => 44
  | .Unset => 45
  | .Unwind => 46
  | .VectorSearch => 47
  | .InverseMatch => 100
  | .LookupUnwind => 101

/-- The stage identifiers accepted by the pipeline compiler: every member of
the `Stage` enum other than `Stage_Invalid` (which stands for an
unrecognized stage name and is rejected). -/
def acceptedStages : List Stage :=
  [.Internal_InhibitOptimization,
   .AddFields, .Bucket, .BucketAuto, .ChangeStream, .CollStats, .Count,
   .CurrentOp, .Densify, .Documents, .Facet, .Fill, .GeoNear, .GraphLookup,
   .Group, .IndexStats, .Limit, .ListLocalSessions, .ListSessions, .Lookup,
   .Match, .Merge, .Out, .Project, .Redact, .ReplaceRoot, .ReplaceWith,
   .Sample, .Search, .SearchMeta, .Set, .SetWindowFields, .Skip, .Sort,
   .SortByCount, .UnionWith, .Unset, .Unwind, .VectorSearch,
   .InverseMatch, .LookupUnwind]

/-- The closed stage set claimed by the specification: the 36 public MongoDB
stages it lists, plus the two internal stages `InhibitOptimization` and the
fused `LookupUnwind`. -/
def specClaimedStages : List Stage :=
  [.Match, .Project, .AddFields, .Set, .Unset, .Group, .Sort, .Limit, .Skip,
   .Unwind, .Lookup, .GraphLookup, .Facet, .UnionWith, .BucketAuto, .Densify,
   .SetWindowFields, .Fill, .GeoNear, .Search, .VectorSearch, .Out, .Merge,
   .Redact, .ReplaceRoot, .ReplaceWith, .SortByCount, .Sample, .Count,
   .ChangeStream, .CurrentOp, .IndexStats, .CollStats, .ListSessions,
   .ListLocalSessions, .Documents,
   .Internal_InhibitOptimization, .LookupUnwind]

instance : Fintype Stage where
  elems := (Stage.Invalid :: acceptedStages).toFinset
  complete := by intro x; cases x <;> decide

/-! ## Constants of the cursor / command layer
    From `src/unnamed/part_015` (include/commands/commands_common.h) and
    `src/pg_documentdb/include/index_am/index_am_utils.h`. -/

/-- `BSON_MAX_ALLOWED_SIZE` from commands_common.h: maximum size of an output
BSON document, 16 MB. -/
def BSON_MAX_ALLOWED_SIZE : Nat := 16 * 1024 * 1024

/-- `BSON_MAX_ALLOWED_SIZE_INTERMEDIATE` from commands_common.h: maximum size
of a document produced by an intermediate aggregation stage, 100 MB. -/
def BSON_MAX_ALLOWED_SIZE_INTERMEDIATE : Nat := 100 * 1024 * 1024

/-- `MAX_ALTERNATE_INDEX_AMS` from index_am_utils.h. -/
def MAX_ALTERNATE_INDEX_AMS : Nat := 5

/-! ## Index access-method registry
    The entry struct is from
    `src/pg_documentdb/include/index_am/index_am_exports.h`; the registry
    itself (the array behind `RegisterIndexAm` /
    `GetBsonIndexAmByIndexAmName`) is not in the repository sources. -/

/-- The `BsonIndexAmEntry` struct from index_am_exports.h: capability
booleans and the access-method name.  The operator-family resolution
callbacks and optional hooks are modelled as presence flags, since only
their identity (not their behaviour) matters for registration and lookup. -/
structure BsonIndexAmEntry where
  is_single_path_index_supported : Bool
  is_unique_index_supported : Bool
  is_wild_card_supported : Bool
  is_composite_index_supported : Bool
  is_text_index_supported : Bool
  is_hashed_index_supported : Bool
  is_order_by_supported : Bool
  is_backwards_scan_supported : Bool
  is_index_only_scan_supported : Bool
  can_support_parallel_scans : Bool
  am_name : String
  has_explain_output_hook : Bool
  has_multikey_status_hook : Bool
  has_truncation_status_hook : Bool
deriving DecidableEq, Repr

/-- Modelled from the spec: the index AM registry behind `RegisterIndexAm`
(index_am_exports.h) and `GetBsonIndexAmByIndexAmName` (index_am_utils.h),
whose storage is not in the repository sources.  Per the spec, "The registry
holds at most N=5 alternate AMs plus a default" and "Lookup is by name". -/
structure IndexAmRegistry where
  defaultAm : BsonIndexAmEntry
  alternateAms : List BsonIndexAmEntry

/-- Modelled from the spec: `RegisterIndexAm` adds an alternate access-method
entry at startup; the registry holds at most `MAX_ALTERNATE_INDEX_AMS`
alternates, so registration beyond the capacity is refused. -/
def RegisterIndexAm (reg : IndexAmRegistry) (entry : BsonIndexAmEntry) :
    Option IndexAmRegistry :=
  if reg.alternateAms.length < MAX_ALTERNATE_INDEX_AMS then
    some { reg with alternateAms := reg.alternateAms ++ [entry] }
  else
    none

/-- Modelled from the spec: `GetBsonIndexAmByIndexAmName` looks a registered
access method up by its `am_name` (the default first, then the alternates). -/
def GetBsonIndexAmByIndexAmName (reg : IndexAmRegistry) (name : String) :
    Option BsonIndexAmEntry :=
  if reg.defaultAm.am_name = name then some reg.defaultAm
  else reg.alternateAms.find? (fun e => e.am_name = name)

/-! ## Cursor types and the pipeline build context
    The enums and structs are from
    `src/pg_documentdb/include/aggregation/bson_aggregation_pipeline.h` and
    `.../bson_aggregation_pipeline_private.h`; the recognition and dispatch
    logic is not in the repository sources and is modelled from the spec. -/

/-- The `QueryCursorType` enum from bson_aggregation_pipeline.h. -/
inductive QueryCursorType where
  | Unspecified
  | Streamable
  | SingleBatch
  | PointRead
  | Tailable
  | Persistent
deriving DecidableEq, Repr

/-- The `ParentStageName` enum from bson_aggregation_pipeline_private.h. -/
inductive ParentStageName where
  | NOPARENT
  | LOOKUP
  | FACET
  | UNIONWITH
  | INVERSEMATCH
deriving DecidableEq, Repr

/-- The fields of `AggregationPipelineBuildContext`
(bson_aggregation_pipeline_private.h) that drive control flow.  The
collection metadata, collation string, parameter counter and sort-spec
fields carry opaque engine data and are not needed by the claims settled
here. -/
structure AggregationPipelineBuildContext where
  stageNum : Nat := 0
  requiresSubQuery : Bool := false
  requiresSubQueryAfterProject : Bool := false
  expandTargetList : Bool := false
  requiresPersistentCursor : Bool := false
  isSingleRowResult : Bool := false
  nestedPipelineLevel : Nat := 0
  numNestedLevels : Nat := 0
  allowShardBaseTable : Bool := false
  requiresTailableCursor : Bool := false
  optimizePipelineStages : Bool := true
  isPointReadQuery : Bool := false
  parentStageName : ParentStageName := .NOPARENT
deriving DecidableEq, Repr

/-- A filter expression of the final query tree, as far as point-read
recognition is concerned: either an equality of `_id` against a literal on
the primary key, an `_id` filter that is not such a point equality, or any
other filter. -/
inductive QueryFilterExpr where
  | primaryKeyIdEquals (literal : Int)
  | idNonLiteral (tag : Nat)
  | otherFilter (tag : Nat)
deriving DecidableEq, Repr

/-- Whether a filter is an equality of `_id` against a literal on the
primary key. -/
def QueryFilterExpr.isPrimaryKeyIdEquality : QueryFilterExpr → Bool
  | .primaryKeyIdEquals _ => true
  | _ => false

/-- The final query tree seen at the end of pipeline compilation: its filter
list and the post-filters that remain to be applied after the base scan. -/
structure FinalQueryTree where
  filters : List QueryFilterExpr
  postFilters : List QueryFilterExpr
deriving DecidableEq, Repr

/-- Modelled from the spec: point-read recognition ("when the final query
tree's sole filter is `_id = <literal>` on the primary key and no
post-filters remain, the context's `is-point-read-query` flag is raised").
The implementation behind `AggregationPipelineBuildContext.isPointReadQuery`
is not in the repository sources. -/
def RecognizePointRead (q : FinalQueryTree)
    (ctx : AggregationPipelineBuildContext) : AggregationPipelineBuildContext :=
  let soleIdFilter :=
    match q.filters with
    | [f] => f.isPrimaryKeyIdEquality
    | _ => false
  if soleIdFilter && q.postFilters.isEmpty then
    { ctx with isPointReadQuery := true }
  else
    ctx

/-- Modelled from the spec: selection of the cursor kind from the build
context (spec §3.5 and the cursor lifecycle table; the selection code is not
in the repository sources).  Point reads and tailable cursors take
precedence; a single-batch request needs no server-side state; queries that
require a persisted cursor get one; simple find/aggregate queries default to
a streamable cursor. -/
def DetermineCursorKind (ctx : AggregationPipelineBuildContext)
    (singleBatchRequested : Bool) : QueryCursorType :=
  if ctx.isPointReadQuery then .PointRead
  else if ctx.requiresTailableCursor then .Tailable
  else if singleBatchRequested then .SingleBatch
  else if ctx.requiresPersistentCursor then .Persistent
  else .Streamable

/-- The drain entry points of the cursor manager, named after the functions
declared in `src/pg_documentdb/include/commands/cursor_private.h`. -/
inductive CursorDrainPath where
  | CreateAndDrainPointReadQueryPath
  | CreateAndDrainSingleBatchQueryPath
  | DrainStreamingQueryPath
  | DrainTailableQueryPath
  | CreateAndDrainPersistedQueryPath
deriving DecidableEq, Repr

/-- Modelled from the spec: the cursor manager executes each query through
the drain function matching its cursor kind (cursor_private.h declares the
entry points; the dispatch code is not in the repository sources).  A
point-read query bypasses the iterator machinery via
`CreateAndDrainPointReadQuery`; an unspecified kind falls back to the
persistent-cursor default. -/
def DispatchCursorExecution : QueryCursorType → CursorDrainPath
  | .PointRead => .CreateAndDrainPointReadQueryPath
  | .SingleBatch => .CreateAndDrainSingleBatchQueryPath
  | .Streamable => .DrainStreamingQueryPath
  | .Tailable => .DrainTailableQueryPath
  | .Persistent => .CreateAndDrainPersistedQueryPath
  | .Unspecified => .CreateAndDrainPersistedQueryPath

/-! ## The cursor page write loop
    `DrainStreamingQuery` is declared in cursor_private.h; its body is not in
    the repository sources.  Rows are modelled by their serialized sizes. -/

/-- Modelled from the spec: the page write loop of `DrainStreamingQuery`
(cursor_private.h) and its siblings.  Starting from the current iteration
count and accumulated serialized size, the loop appends one row at a time to
the page and stops when the source is exhausted, when the configured
`batchSize` is reached, or when the accumulated size plus the next candidate
row would exceed the 16 MiB BSON limit.  Returns the rows written to the
page. -/
def DrainStreamingQuery (batchSize : Nat) :
    Nat → Nat → List Nat → List Nat
  | _, _, [] => []
  | numIterations, accumulatedSize, r :: rest =>
    if batchSize ≤ numIterations then []
    else if BSON_MAX_ALLOWED_SIZE < accumulatedSize + r then []
    else r :: DrainStreamingQuery batchSize (numIterations + 1)
           (accumulatedSize + r) rest

/-! ## A document model for the `$lookup` / `$unwind` stages
    `HandleLookup`, `HandleLookupUnwind` and `CanInlineLookupWithUnwind` are
    declared in bson_aggregation_pipeline_private.h; their bodies are not in
    the repository sources, so the stage semantics is modelled from the
    spec over a small BSON value model. -/

/-- A BSON value, restricted to the variants the lookup/unwind semantics
manipulates: scalars, documents (ordered field lists) and arrays. -/
inductive BVal where
  | int (n : Int)
  | str (s : String)
  | doc (fields : List (String × BVal))
  | arr (elems : List BVal)

/-- A document: an ordered list of (field-name, value) pairs. -/
abbrev BDoc := List (String × BVal)

/-- Look a top-level field up in a document (first occurrence wins). -/
def getField : BDoc → String → Option BVal
  | [], _ => none
  | (k', v') :: rest, k => if k' = k then some v' else getField rest k

/-- Set a top-level field of a document: replace the first occurrence, or
append the field when absent. -/
def setField : BDoc → String → BVal → BDoc
  | [], k, v => [(k, v)]
  | (k', v') :: rest, k, v =>
      if k' = k then (k, v) :: rest else (k', v') :: setField rest k v

/-- Modelled from the spec: the `$lookup` stage (`HandleLookup`).  For each
input document, the matching foreign documents are collected into an array
stored under the `as` field.  The match between a local and a foreign
document (equality of the `localField` value with the `foreignField` value)
is abstracted as a predicate. -/
def lookupStage (foreign : List BDoc) (lookupMatches : BDoc → BDoc → Bool)
    (asField : String) (input : List BDoc) : List BDoc :=
  input.map (fun d =>
    setField d asField (BVal.arr ((foreign.filter (lookupMatches d)).map BVal.doc)))

/-- Modelled from the spec: unwinding one document at a path.  An array
value produces one output per element with the element inlined at the path;
an empty array or a missing path produces the document only when
`preserveNullAndEmptyArrays` is set; a non-array value passes through. -/
def unwindDocAt (path : String) (preserveNullAndEmptyArrays : Bool)
    (d : BDoc) : List BDoc :=
  match getField d path with
  | some (BVal.arr elems) =>
      if elems.isEmpty then
        (if preserveNullAndEmptyArrays then [setField d path (BVal.arr [])] else [])
      else elems.map (fun e => setField d path e)
  | some _ => [d]
  | none => if preserveNullAndEmptyArrays then [d] else []

/-- Modelled from the spec: the `$unwind` stage. -/
def unwindStage (path : String) (preserveNullAndEmptyArrays : Bool)
    (input : List BDoc) : List BDoc :=
  input.flatMap (unwindDocAt path preserveNullAndEmptyArrays)

/-- Modelled from the spec: the fused `LookupUnwind` stage
(`HandleLookupUnwind`): "lowers to an inner or left join with the unwound
shape inlined, avoiding a group-by-rewrap round-trip".  With
`preserveNullAndEmptyArrays = false` this is an inner join: one output per
(input document, matching foreign document) pair, with the foreign document
inlined at the `as` field; with the flag set, an unmatched input document
survives with an empty array at the `as` field (left join). -/
def lookupUnwindStage (foreign : List BDoc)
    (lookupMatches : BDoc → BDoc → Bool) (asField : String)
    (preserveNullAndEmptyArrays : Bool) (input : List BDoc) : List BDoc :=
  input.flatMap (fun d =>
    let ms := foreign.filter (lookupMatches d)
    if ms.isEmpty then
      (if preserveNullAndEmptyArrays then [setField d asField (BVal.arr [])]
       else [])
    else ms.map (fun f => setField d asField (BVal.doc f)))

/-- `CanInlineLookupWithUnwind`
(bson_aggregation_pipeline_private.h).  Modelled from the spec: the
combination can be inlined when the `$unwind` stage unwinds exactly the
`$lookup` stage's `as` field (the `preserveNullAndEmptyArrays` option is
captured by the caller). -/
def CanInlineLookupWithUnwind (asField unwindPath : String) : Bool :=
  asField == unwindPath

/-- The pipeline stages participating in the fusion rewrite. -/
inductive PipelineStage where
  | lookup (lookupMatches : BDoc → BDoc → Bool) (asField : String)
  | unwind (path : String) (preserveNullAndEmptyArrays : Bool)
  | lookupUnwind (lookupMatches : BDoc → BDoc → Bool) (asField : String)
      (preserveNullAndEmptyArrays : Bool)

/-- Modelled from the spec: the optimization pass of the pipeline compiler
that fuses a `$lookup` stage immediately followed by a `$unwind` stage on
the lookup's `as` field into a single `LookupUnwind` stage. -/
def OptimizePipelineStages : (stages : List PipelineStage) → List PipelineStage
  | .lookup m a :: .unwind p preserve :: rest =>
      if CanInlineLookupWithUnwind a p then
        .lookupUnwind m a preserve :: OptimizePipelineStages rest
      else
        .lookup m a :: OptimizePipelineStages (.unwind p preserve :: rest)
  | s :: rest => s :: OptimizePipelineStages rest
  | [] => []
termination_by stages => stages.length
decreasing_by all_goals simp_arith [List.length]

/-- Evaluate one pipeline stage over an input document stream (the foreign
collection of lookups is fixed). -/
def evalPipelineStage (foreign : List BDoc) :
    PipelineStage → List BDoc → List BDoc
  | .lookup m a, input => lookupStage foreign m a input
  | .unwind p preserve, input => unwindStage p preserve input
  | .lookupUnwind m a preserve, input =>
      lookupUnwindStage foreign m a preserve input

/-- Evaluate a pipeline left-to-right. -/
def evalPipeline (foreign : List BDoc) (stages : List PipelineStage)
    (input : List BDoc) : List BDoc :=
  stages.foldl (fun docs s => evalPipelineStage foreign s docs) input

/-! ## Projection path-tree construction: inclusion/exclusion validation
    The `BuildBsonPathTreeContext` struct is from
    `src/pg_documentdb/include/aggregation/bson_projection_tree.h`; the body
    of `BuildBsonPathTree` is not in the repository sources, so the
    validation walk is modelled from the spec (§4.2). -/

/-- The kind of leaf a projection entry produces (spec §3.2/§4.2). -/
inductive ProjectionLeafKind where
  | included
  | excluded
  | fieldExpr
deriving DecidableEq, Repr

/-- The value of one projection specification entry, as far as leaf-kind
determination is concerned: a number, a boolean, or an operator/literal
expression. -/
inductive ProjectionSpecValue where
  | numVal (n : Int)
  | boolVal (b : Bool)
  | exprVal (tag : Nat)
deriving DecidableEq, Repr

/-- Modelled from the spec (§4.2 step 2c): the leaf kind determined by a
projection entry's value — numeric `0` / `false` produce an `Excluded`
leaf, numeric nonzero / `true` an `Included` leaf, and operator or literal
expressions a `Field` leaf. -/
def projectionLeafKind : ProjectionSpecValue → ProjectionLeafKind
  | .numVal n => if n = 0 then .excluded else .included
  | .boolVal b => if b then .included else .excluded
  | .exprVal _ => .fieldExpr

/-- The validation fields of `BuildBsonPathTreeContext`
(bson_projection_tree.h): `allowInclusionExclusion` (IN), `hasExclusion`
and `hasInclusion` (OUT), `hasAggregationExpressions` (OUT),
`skipParseAggregationExpressions` and `skipIfAlreadyExists` (IN). -/
structure BuildBsonPathTreeContext where
  allowInclusionExclusion : Bool := false
  skipParseAggregationExpressions : Bool := false
  hasExclusion : Bool := false
  hasInclusion : Bool := false
  hasAggregationExpressions : Bool := false
  skipIfAlreadyExists : Bool := false
deriving DecidableEq, Repr

/-- Modelled from the spec: processing of one projection entry during
`BuildBsonPathTree`, enforcing the rule "a tree cannot mix `Included` and
`Excluded` leaves unless `allow-inclusion-exclusion=true`; `_id` is exempt
(can be excluded in an inclusion tree)". -/
def addProjectionEntry (ctx : BuildBsonPathTreeContext) (path : String)
    (v : ProjectionSpecValue) : Except String BuildBsonPathTreeContext :=
  match projectionLeafKind v with
  | .included =>
      if ctx.hasExclusion && !ctx.allowInclusionExclusion then
        .error "BadValue: cannot include a field in an exclusion projection"
      else .ok { ctx with hasInclusion := true }
  | .excluded =>
      if path = "_id" then .ok ctx
      else if ctx.hasInclusion && !ctx.allowInclusionExclusion then
        .error "BadValue: cannot exclude a field in an inclusion projection"
      else .ok { ctx with hasExclusion := true }
  | .fieldExpr => .ok { ctx with hasAggregationExpressions := true }

/-- Modelled from the spec: the entry traversal of `BuildBsonPathTree`
(bson_projection_tree.h): the specification entries are processed once in
order, threading the build context; a validation failure stops the build
with an error. -/
def buildPathTreeValidate (ctx : BuildBsonPathTreeContext) :
    List (String × ProjectionSpecValue) →
      Except String BuildBsonPathTreeContext
  | [] => .ok ctx
  | (p, v) :: rest =>
      match addProjectionEntry ctx p v with
      | .error e => .error e
      | .ok ctx' => buildPathTreeValidate ctx' rest

/-- Modelled from the spec: `BuildBsonPathTree` (bson_projection_tree.h)
restricted to its inclusion/exclusion validation, starting from a fresh
context carrying the `allowInclusionExclusion` option. -/
def BuildBsonPathTree (allowInclusionExclusion : Bool)
    (entries : List (String × ProjectionSpecValue)) :
    Except String BuildBsonPathTreeContext :=
  buildPathTreeValidate { allowInclusionExclusion := allowInclusionExclusion }
    entries

/-- Whether an `Except` result is an error. -/
def exceptIsError {ε α : Type} : Except ε α → Bool
  | .error _ => true
  | .ok _ => false

/-- Whether a projection entry list contains an `Included` leaf. -/
def containsInclusionLeaf (entries : List (String × ProjectionSpecValue)) : Bool :=
  entries.any (fun e => projectionLeafKind e.2 == ProjectionLeafKind.included)

/-- Whether a projection entry list contains an `Excluded` leaf on a path
other than `_id`. -/
def containsNonIdExclusionLeaf
    (entries : List (String × ProjectionSpecValue)) : Bool :=
  entries.any (fun e =>
    projectionLeafKind e.2 == ProjectionLeafKind.excluded && e.1 != "_id")

/-! ## The `$`-positional projection operator
    The `ProjectDocumentState` struct is from
    `src/pg_documentdb/include/aggregation/bson_project_operator.h` /
    `bson_project.h`; `MatchPositionalQueryAgainstDocument` is declared in
    `src/unnamed/part_001` (bson_positional_query.h).  The projection walk
    itself is not in the repository sources. -/

/-- The control-flow fields of `ProjectDocumentState` (bson_project.h):
`isPositionalAlreadyEvaluated` marks that the positional query has been used
to evaluate the match index ("the positional path spec can only be used once
by the outermost array"), together with the other boolean state. -/
structure ProjectDocumentState where
  isPositionalAlreadyEvaluated : Bool := false
  hasExclusion : Bool := false
  skipIntermediateArrayFields : Bool := false
deriving DecidableEq, Repr

/-- The shape of the source document along the positional projection's
path: at each level the traversed value is either a (sub)document or an
array. -/
inductive PathLevelKind where
  | docLevel
  | arrayLevel
deriving DecidableEq, Repr

/-- Modelled from the spec: the positional walk of the projection engine
down the source path.  At each array level, the `$`-positional operator
consults the query evaluator (`MatchPositionalQueryAgainstDocument`, with
the evaluator supplied at projection-state construction) only when
`isPositionalAlreadyEvaluated` is not yet set, and then sets the flag, so
nested arrays are suppressed.  Returns the 0-based depths at which the
evaluator was consulted. -/
def positionalEvalDepths (st : ProjectDocumentState) :
    List PathLevelKind → List Nat
  | [] => []
  | lvl :: rest =>
    match lvl with
    | .docLevel => (positionalEvalDepths st rest).map (· + 1)
    | .arrayLevel =>
        if st.isPositionalAlreadyEvaluated then
          (positionalEvalDepths st rest).map (· + 1)
        else
          0 :: (positionalEvalDepths
                  { st with isPositionalAlreadyEvaluated := true } rest).map
                (· + 1)

/-- The depth of the outermost (first) array along the source path, if
any. -/
def firstArrayDepth : List PathLevelKind → Option Nat
  | [] => none
  | .arrayLevel :: _ => some 0
  | .docLevel :: rest => (firstArrayDepth rest).map (· + 1)

/-! ## Retryable writes
    The `RetryableWriteResult` struct and record accessors are declared in
    `src/pg_documentdb/include/commands/retryable_writes.h`; the write path
    that consults them is not in the repository sources. -/

/-- The `RetryableWriteResult` struct from retryable_writes.h.  BSON payloads
(`objectId`, `resultDocument`) are modelled as opaque naturals: only their
identity matters to the retry contract. -/
structure RetryableWriteResult where
  objectId : Option Nat
  rowsAffected : Bool
  shardKeyValue : Int
  resultDocument : Option Nat
deriving DecidableEq, Repr

/-- State of one collection together with its retry records: the stored
documents (opaque) and the retry records keyed by transaction id, as
maintained by `InsertRetryRecord` / `FindRetryRecordInAnyShard`. -/
structure RetryableCollectionState where
  docs : List Nat
  retryRecords : List (String × RetryableWriteResult)
deriving DecidableEq, Repr

/-- `FindRetryRecordInAnyShard` (retryable_writes.h): look up the retry
record stored for a transaction id. -/
def FindRetryRecordInAnyShard (st : RetryableCollectionState)
    (transactionId : String) : Option RetryableWriteResult :=
  (st.retryRecords.find? (fun r => r.1 = transactionId)).map (·.2)

/-- Modelled from the spec: execution of a retryable write W under
retry-record transaction id R ("the core never skips its retry-record check,
which provides exactly-once semantics for retryable writes").  If a retry
record for R exists, the stored `RetryableWriteResult` is returned without
re-applying the write; otherwise the write is applied and a record inserted
via `InsertRetryRecord`.  The write itself is an arbitrary function from the
stored documents to new documents plus a result. -/
def ExecuteRetryableWrite
    (write : List Nat → List Nat × RetryableWriteResult)
    (st : RetryableCollectionState) (transactionId : String) :
    RetryableCollectionState × RetryableWriteResult :=
  match FindRetryRecordInAnyShard st transactionId with
  | some stored => (st, stored)
  | none =>
      let applied := write st.docs
      ({ docs := applied.1
         retryRecords := (transactionId, applied.2) :: st.retryRecords },
       applied.2)

end DocumentDB

namespace DocumentDB

/-! ## First theorems: claims decided directly by the source -/

/-- **C10.** For every value of the `NodeType` enum, `NodeType_IsLeaf t`
returns true exactly when `t` is one of the five leaf kinds
(`LeafIncluded`, `LeafExcluded`, `LeafField`, `LeafWithArrayField`,
`LeafFieldWithContext`) and false for `None` and `Intermediate`;
equivalently, a node type is a leaf iff bit `0x80` is set in its value. -/
theorem nodeType_isLeaf_characterization :
    ∀ t : NodeType,
      (NodeType_IsLeaf t = true ↔
        (t = NodeType.LeafIncluded ∨ t = NodeType.LeafExcluded ∨
         t = NodeType.LeafField ∨ t = NodeType.LeafWithArrayField ∨
         t = NodeType.LeafFieldWithContext)) ∧
      (NodeType_IsLeaf t = true ↔ Nat.testBit t.val 7) ∧
      (NodeType_IsLeaf NodeType.None = false ∧
       NodeType_IsLeaf NodeType.Intermediate = false) := by
  decide

/-- **C9, counterexample.** The claim that the accepted stage set is the 36
listed public stages plus exactly the two internal stages
`InhibitOptimization` and `LookupUnwind` is false at the concrete stage
`Stage_Bucket`: `$bucket` is a member of the compiler's `Stage` enum (hence
accepted) but is not in the claimed set.  `Stage_SearchMeta` and the custom
stage `Stage_InverseMatch` are further such members. -/
theorem acceptedStages_not_specClaimed :
    Stage.Bucket ∈ acceptedStages ∧ Stage.Bucket ∉ specClaimedStages ∧
    Stage.SearchMeta ∈ acceptedStages ∧ Stage.SearchMeta ∉ specClaimedStages ∧
    Stage.InverseMatch ∈ acceptedStages ∧
    Stage.InverseMatch ∉ specClaimedStages := by
  decide

/-- **C9, amended.** The set of aggregation stages accepted by the pipeline
compiler is closed: it consists exactly of the 36 public stages listed by the
spec together with `$bucket`, `$searchMeta`, and the three non-public stages
`InhibitOptimization`, `InverseMatch` and the fused `LookupUnwind`; no stage
outside this set (i.e. only `Stage_Invalid`) is accepted. -/
theorem acceptedStages_closed_set :
    ∀ s : Stage,
      (s ∈ acceptedStages ↔
        (s ∈ specClaimedStages ∨
         s = Stage.Bucket ∨ s = Stage.SearchMeta ∨ s = Stage.InverseMatch)) ∧
      (s ∉ acceptedStages ↔ s = Stage.Invalid) := by
  decide

/-- **C8.** The index access-method registry holds at most
`MAX_ALTERNATE_INDEX_AMS = 5` alternate access methods in addition to the
default — registration preserves the bound and is refused at capacity — and
lookup of a registered access method is by name: any entry returned by
`GetBsonIndexAmByIndexAmName reg name` has `am_name = name`. -/
theorem indexAmRegistry_capacity_and_lookup_by_name :
    MAX_ALTERNATE_INDEX_AMS = 5 ∧
    (∀ (reg reg' : IndexAmRegistry) (e : BsonIndexAmEntry),
      RegisterIndexAm reg e = some reg' →
        reg'.alternateAms.length ≤ MAX_ALTERNATE_INDEX_AMS) ∧
    (∀ (reg : IndexAmRegistry) (e : BsonIndexAmEntry),
      reg.alternateAms.length = MAX_ALTERNATE_INDEX_AMS →
        RegisterIndexAm reg e = none) ∧
    (∀ (reg : IndexAmRegistry) (name : String) (entry : BsonIndexAmEntry),
      GetBsonIndexAmByIndexAmName reg name = some entry →
        entry.am_name = name) := by
  refine ⟨rfl, ?_, ?_, ?_⟩
  · intro reg reg' e hreg
    unfold RegisterIndexAm at hreg
    split at hreg
    · cases hreg
      simpa using Nat.succ_le_of_lt (by assumption)
    · exact absurd hreg (by simp)
  · intro reg e hlen
    unfold RegisterIndexAm
    simp [hlen]
  · intro reg name entry hfind
    unfold GetBsonIndexAmByIndexAmName at hfind
    split at hfind
    · cases hfind
      assumption
    · have := List.find?_some hfind
      simpa using this

/-- Closed-form witness for the capacity/lookup theorem, instantiating it at
a concrete registry with one alternate entry. -/
def sampleAmEntry (name : String) : BsonIndexAmEntry :=
  { is_single_path_index_supported := true
    is_unique_index_supported := true
    is_wild_card_supported := true
    is_composite_index_supported := false
    is_text_index_supported := false
    is_hashed_index_supported := false
    is_order_by_supported := false
    is_backwards_scan_supported := false
    is_index_only_scan_supported := false
    can_support_parallel_scans := false
    am_name := name
    has_explain_output_hook := false
    has_multikey_status_hook := false
    has_truncation_status_hook := false }

/-- Concrete registry with a default entry and one alternate entry. -/
def sampleRegistry : IndexAmRegistry :=
  { defaultAm := sampleAmEntry "documentdb_rum"
    alternateAms := [sampleAmEntry "documentdb_extended_rum"] }

theorem indexAmRegistry_capacity_and_lookup_by_name_witness :
    (sampleAmEntry "documentdb_extended_rum").am_name =
      "documentdb_extended_rum" :=
  indexAmRegistry_capacity_and_lookup_by_name.2.2.2 sampleRegistry
    "documentdb_extended_rum" (sampleAmEntry "documentdb_extended_rum") rfl

/-- **C2.** For every compiled aggregation query whose final query tree's
sole filter is an equality of `_id` against a literal on the primary key,
with no post-filters remaining, the build context's `isPointReadQuery` flag
is set and the cursor manager executes the query via the point-read drain
path (`CreateAndDrainPointReadQuery`), bypassing the iterator machinery. -/
theorem pointRead_recognized_and_dispatched
    (q : FinalQueryTree) (ctx : AggregationPipelineBuildContext)
    (lit : Int) (singleBatchRequested : Bool)
    (hsole : q.filters = [QueryFilterExpr.primaryKeyIdEquals lit])
    (hpost : q.postFilters = []) :
    (RecognizePointRead q ctx).isPointReadQuery = true ∧
    DispatchCursorExecution
        (DetermineCursorKind (RecognizePointRead q ctx) singleBatchRequested) =
      CursorDrainPath.CreateAndDrainPointReadQueryPath := by
  have hctx : RecognizePointRead q ctx = { ctx with isPointReadQuery := true } := by
    unfold RecognizePointRead
    rw [hsole, hpost]
    simp [QueryFilterExpr.isPrimaryKeyIdEquality]
  refine ⟨by rw [hctx], ?_⟩
  rw [hctx]
  unfold DetermineCursorKind
  simp [DispatchCursorExecution]

theorem pointRead_recognized_and_dispatched_witness :
    (RecognizePointRead ⟨[QueryFilterExpr.primaryKeyIdEquals 7], []⟩
        {}).isPointReadQuery = true ∧
    DispatchCursorExecution
        (DetermineCursorKind
          (RecognizePointRead ⟨[QueryFilterExpr.primaryKeyIdEquals 7], []⟩ {})
          false) =
      CursorDrainPath.CreateAndDrainPointReadQueryPath :=
  pointRead_recognized_and_dispatched
    ⟨[QueryFilterExpr.primaryKeyIdEquals 7], []⟩ {} 7 false rfl rfl

/-- **C5.** For every simple find or aggregate query — one that is not a
point read, needs no tailable or persistent cursor, and does not request a
single batch — the cursor kind selected is `Streamable`, executed through
the streaming drain path (resumable via the continuation token that
`DrainStreamingQuery` maintains). -/
theorem simple_query_default_cursor_is_streamable
    (ctx : AggregationPipelineBuildContext)
    (hpr : ctx.isPointReadQuery = false)
    (htail : ctx.requiresTailableCursor = false)
    (hpersist : ctx.requiresPersistentCursor = false) :
    DetermineCursorKind ctx false = QueryCursorType.Streamable ∧
    DispatchCursorExecution (DetermineCursorKind ctx false) =
      CursorDrainPath.DrainStreamingQueryPath := by
  unfold DetermineCursorKind
  simp [hpr, htail, hpersist, DispatchCursorExecution]

theorem simple_query_default_cursor_is_streamable_witness :
    DetermineCursorKind {} false = QueryCursorType.Streamable ∧
    DispatchCursorExecution (DetermineCursorKind {} false) =
      CursorDrainPath.DrainStreamingQueryPath :=
  simple_query_default_cursor_is_streamable {} rfl rfl rfl

/-- **C7.** For every retryable write W executed with retry-record
transaction id R, re-issuing W with the same R returns the same result
document as the first execution and produces no duplicate side effects: the
state after the second execution equals the state after the first, because
the stored `RetryableWriteResult` is returned instead of re-applying the
write. -/
theorem retryableWrite_reissue_is_idempotent
    (write : List Nat → List Nat × RetryableWriteResult)
    (st : RetryableCollectionState) (transactionId : String) :
    ExecuteRetryableWrite write
        (ExecuteRetryableWrite write st transactionId).1 transactionId =
      ExecuteRetryableWrite write st transactionId := by
  unfold ExecuteRetryableWrite
  cases hfind : FindRetryRecordInAnyShard st transactionId with
  | some stored => simp [hfind]
  | none =>
      simp only [hfind]
      have hfound :
          FindRetryRecordInAnyShard
            { docs := (write st.docs).1
              retryRecords := (transactionId, (write st.docs).2) ::
                st.retryRecords } transactionId =
            some (write st.docs).2 := by
        unfold FindRetryRecordInAnyShard
        simp [List.find?]
      simp [hfound]

/-! ### Helper lemmas for the lookup/unwind fusion -/

/-- Reading back a field that was just set yields the value set. -/
lemma getField_setField (d : BDoc) (k : String) (v : BVal) :
    getField (setField d k v) k = some v := by
  induction d with
  | nil => simp [setField, getField]
  | cons kv rest ih =>
      obtain ⟨k', v'⟩ := kv
      by_cases h : k' = k
      · simp [setField, getField, h]
      · simp [setField, getField, h, ih]

/-- Setting the same field twice keeps only the second write. -/
lemma setField_setField (d : BDoc) (k : String) (v w : BVal) :
    setField (setField d k v) k w = setField d k w := by
  induction d with
  | nil => simp [setField]
  | cons kv rest ih =>
      obtain ⟨k', v'⟩ := kv
      by_cases h : k' = k
      · simp [setField, h]
      · simp [setField, h, ih]

/-- Unwinding a document whose `as` field was just set to an array inlines
each array element at the field (dropping the document for an empty array
unless `preserveNullAndEmptyArrays` is set). -/
lemma unwindDocAt_setField_arr (a : String) (preserve : Bool) (d : BDoc)
    (ms : List BVal) :
    unwindDocAt a preserve (setField d a (BVal.arr ms)) =
      if ms.isEmpty then
        (if preserve then [setField d a (BVal.arr [])] else [])
      else ms.map (fun e => setField d a e) := by
  unfold unwindDocAt
  rw [getField_setField]
  by_cases hms : ms.isEmpty
  · have : ms = [] := by
      cases ms with
      | nil => rfl
      | cons x xs => simp at hms
    subst this
    simp [setField_setField]
  · simp only [hms, if_neg, Bool.false_eq_true, if_false]
    simp [setField_setField]

/-- The unfused pipeline fragment — `$lookup` immediately followed by
`$unwind` on the lookup's `as` field — produces exactly the output of the
fused `LookupUnwind` stage (for either value of
`preserveNullAndEmptyArrays`). -/
lemma unwind_lookup_eq_lookupUnwind (foreign : List BDoc)
    (m : BDoc → BDoc → Bool) (a : String) (preserve : Bool)
    (input : List BDoc) :
    unwindStage a preserve (lookupStage foreign m a input) =
      lookupUnwindStage foreign m a preserve input := by
  induction input with
  | nil => simp [unwindStage, lookupStage, lookupUnwindStage]
  | cons d rest ih =>
      simp only [unwindStage, lookupStage, lookupUnwindStage, List.map_cons,
        List.flatMap_cons] at ih ⊢
      rw [unwindDocAt_setField_arr]
      congr 1
      by_cases hms : (foreign.filter (m d)).isEmpty
      · have : foreign.filter (m d) = [] := by
          cases hfm : foreign.filter (m d) with
          | nil => rfl
          | cons x xs => rw [hfm] at hms; simp at hms
        simp [this]
      · have hne : foreign.filter (m d) ≠ [] := by
          intro hcon; rw [hcon] at hms; simp at hms
        simp only [List.isEmpty_eq_true, List.map_eq_nil_iff, hne,
          if_neg, List.map_map]
        simp [hms]

/-! ### Helper lemmas for projection-tree validation -/

/-- Characterization of validation failure for the projection-tree build
fold, generalized over the running context (with the
`allowInclusionExclusion` option off): the fold errors exactly when an
inclusion (seen or pending) meets a non-`_id` exclusion (seen or pending). -/
lemma buildPathTreeValidate_error_iff
    (entries : List (String × ProjectionSpecValue)) :
    ∀ ctx : BuildBsonPathTreeContext,
      ctx.allowInclusionExclusion = false →
      (exceptIsError (buildPathTreeValidate ctx entries) = true ↔
        ((ctx.hasInclusion = true ∨ containsInclusionLeaf entries = true) ∧
          containsNonIdExclusionLeaf entries = true) ∨
        (ctx.hasExclusion = true ∧ containsInclusionLeaf entries = true)) := by
  induction entries with
  | nil =>
      intro ctx hallow
      simp [buildPathTreeValidate, exceptIsError, containsInclusionLeaf,
        containsNonIdExclusionLeaf]
  | cons e rest ih =>
      intro ctx hallow
      obtain ⟨p, v⟩ := e
      have hconsIncl : containsInclusionLeaf ((p, v) :: rest) =
          ((projectionLeafKind v == ProjectionLeafKind.included) ||
            containsInclusionLeaf rest) := by
        simp [containsInclusionLeaf, List.any_cons]
      have hconsExcl : containsNonIdExclusionLeaf ((p, v) :: rest) =
          (((projectionLeafKind v == ProjectionLeafKind.excluded) &&
             (p != "_id")) || containsNonIdExclusionLeaf rest) := by
        simp [containsNonIdExclusionLeaf, List.any_cons]
      rcases hkind : projectionLeafKind v with _ | _ | _
      · -- included leaf
        by_cases hexcl : ctx.hasExclusion = true
        · have hstep : addProjectionEntry ctx p v =
              Except.error
                "BadValue: cannot include a field in an exclusion projection" := by
            simp [addProjectionEntry, hkind, hallow, hexcl]
          have hrun : buildPathTreeValidate ctx ((p, v) :: rest) =
              Except.error
                "BadValue: cannot include a field in an exclusion projection" := by
            simp [buildPathTreeValidate, hstep]
          rw [hrun]
          simp only [hconsIncl, hkind, hconsExcl, exceptIsError]
          simp [hexcl]
        · have hexcl' : ctx.hasExclusion = false := by
            cases h : ctx.hasExclusion
            · rfl
            · exact absurd h hexcl
          have hstep : addProjectionEntry ctx p v =
              Except.ok { ctx with hasInclusion := true } := by
            simp [addProjectionEntry, hkind, hallow, hexcl']
          have hrun : buildPathTreeValidate ctx ((p, v) :: rest) =
              buildPathTreeValidate { ctx with hasInclusion := true } rest := by
            simp [buildPathTreeValidate, hstep]
          rw [hrun, ih { ctx with hasInclusion := true } hallow]
          simp only [hconsIncl, hkind, hconsExcl]
          simp [hexcl']
      · -- excluded leaf
        by_cases hid : p = "_id"
        · subst hid
          have hstep : addProjectionEntry ctx "_id" v = Except.ok ctx := by
            simp [addProjectionEntry, hkind]
          have hrun : buildPathTreeValidate ctx (("_id", v) :: rest) =
              buildPathTreeValidate ctx rest := by
            simp [buildPathTreeValidate, hstep]
          rw [hrun, ih ctx hallow]
          simp [hconsIncl, hkind, hconsExcl]
        · by_cases hincl : ctx.hasInclusion = true
          · have hstep : addProjectionEntry ctx p v =
                Except.error
                  "BadValue: cannot exclude a field in an inclusion projection" := by
              simp [addProjectionEntry, hkind, hallow, hid, hincl]
            have hrun : buildPathTreeValidate ctx ((p, v) :: rest) =
                Except.error
                  "BadValue: cannot exclude a field in an inclusion projection" := by
              simp [buildPathTreeValidate, hstep]
            rw [hrun]
            simp only [hconsIncl, hkind, hconsExcl, exceptIsError]
            simp [hincl, hid]
          · have hincl' : ctx.hasInclusion = false := by
              cases h : ctx.hasInclusion
              · rfl
              · exact absurd h hincl
            have hstep : addProjectionEntry ctx p v =
                Except.ok { ctx with hasExclusion := true } := by
              simp [addProjectionEntry, hkind, hallow, hid, hincl']
            have hrun : buildPathTreeValidate ctx ((p, v) :: rest) =
                buildPathTreeValidate { ctx with hasExclusion := true } rest := by
              simp [buildPathTreeValidate, hstep]
            rw [hrun, ih { ctx with hasExclusion := true } hallow]
            simp only [hconsIncl, hkind, hconsExcl]
            simp only [hincl']
            by_cases hci : containsInclusionLeaf rest = true <;>
              by_cases hce : containsNonIdExclusionLeaf rest = true <;>
                simp [hci, hce, hid]
      · -- field-expression leaf
        have hstep : addProjectionEntry ctx p v =
            Except.ok { ctx with hasAggregationExpressions := true } := by
          simp [addProjectionEntry, hkind]
        have hrun : buildPathTreeValidate ctx ((p, v) :: rest) =
            buildPathTreeValidate { ctx with hasAggregationExpressions := true }
              rest := by
          simp [buildPathTreeValidate, hstep]
        rw [hrun, ih { ctx with hasAggregationExpressions := true } hallow]
        simp only [hconsIncl, hkind, hconsExcl]
        simp

/-- With `allowInclusionExclusion = true` the build never fails. -/
lemma buildPathTreeValidate_allow_ok
    (entries : List (String × ProjectionSpecValue)) :
    ∀ ctx : BuildBsonPathTreeContext,
      ctx.allowInclusionExclusion = true →
      exceptIsError (buildPathTreeValidate ctx entries) = false := by
  induction entries with
  | nil => intro ctx _; rfl
  | cons e rest ih =>
      intro ctx hallow
      obtain ⟨p, v⟩ := e
      rcases hkind : projectionLeafKind v with _ | _ | _
      · have hstep : addProjectionEntry ctx p v =
            Except.ok { ctx with hasInclusion := true } := by
          simp [addProjectionEntry, hkind, hallow]
        have hrun : buildPathTreeValidate ctx ((p, v) :: rest) =
            buildPathTreeValidate { ctx with hasInclusion := true } rest := by
          simp [buildPathTreeValidate, hstep]
        rw [hrun]
        exact ih { ctx with hasInclusion := true } hallow
      · by_cases hid : p = "_id"
        · have hstep : addProjectionEntry ctx p v = Except.ok ctx := by
            simp [addProjectionEntry, hkind, hid]
          have hrun : buildPathTreeValidate ctx ((p, v) :: rest) =
              buildPathTreeValidate ctx rest := by
            simp [buildPathTreeValidate, hstep]
          rw [hrun]
          exact ih ctx hallow
        · have hstep : addProjectionEntry ctx p v =
              Except.ok { ctx with hasExclusion := true } := by
            simp [addProjectionEntry, hkind, hallow, hid]
          have hrun : buildPathTreeValidate ctx ((p, v) :: rest) =
              buildPathTreeValidate { ctx with hasExclusion := true } rest := by
            simp [buildPathTreeValidate, hstep]
          rw [hrun]
          exact ih { ctx with hasExclusion := true } hallow
      · have hstep : addProjectionEntry ctx p v =
            Except.ok { ctx with hasAggregationExpressions := true } := by
          simp [addProjectionEntry, hkind]
        have hrun : buildPathTreeValidate ctx ((p, v) :: rest) =
            buildPathTreeValidate { ctx with hasAggregationExpressions := true }
              rest := by
          simp [buildPathTreeValidate, hstep]
        rw [hrun]
        exact ih { ctx with hasAggregationExpressions := true } hallow

/-- The fusion pass is output-preserving on whole pipelines: evaluating the
optimized stage list gives exactly the same document stream as the original
stage list. -/
lemma optimizePipelineStages_sound (foreign : List BDoc) :
    ∀ (stages : List PipelineStage) (input : List BDoc),
      evalPipeline foreign (OptimizePipelineStages stages) input =
        evalPipeline foreign stages input := by
  intro stages
  induction stages using OptimizePipelineStages.induct with
  | case1 m a p preserve rest hinline ih =>
      intro input
      rw [OptimizePipelineStages]
      simp only [hinline, if_true]
      have ha : a = p := by
        simpa [CanInlineLookupWithUnwind] using hinline
      subst ha
      simp only [evalPipeline, List.foldl_cons] at ih ⊢
      rw [ih]
      simp only [evalPipelineStage]
      rw [← unwind_lookup_eq_lookupUnwind]
  | case2 m a p preserve rest hinline ih =>
      intro input
      rw [OptimizePipelineStages]
      simp only [hinline, if_false, Bool.false_eq_true]
      simp only [evalPipeline, List.foldl_cons] at ih ⊢
      rw [ih]
  | case3 s rest hshape ih =>
      intro input
      rw [OptimizePipelineStages.eq_def]
      cases s with
      | lookup m a =>
          cases rest with
          | nil =>
              simp only [evalPipeline, List.foldl_cons]
              simp [OptimizePipelineStages]
          | cons s2 rest2 =>
              cases s2 with
              | unwind p preserve =>
                  exact (hshape m a p preserve rest2 rfl rfl).elim
              | lookup m2 a2 =>
                  simp only [evalPipeline, List.foldl_cons] at ih ⊢
                  rw [ih]
              | lookupUnwind m2 a2 p2 =>
                  simp only [evalPipeline, List.foldl_cons] at ih ⊢
                  rw [ih]
      | unwind p preserve =>
          simp only [evalPipeline, List.foldl_cons] at ih ⊢
          rw [ih]
      | lookupUnwind m a preserve =>
          simp only [evalPipeline, List.foldl_cons] at ih ⊢
          rw [ih]
  | case4 => intro input; simp [OptimizePipelineStages]

/-! ### Helper lemmas for the page write loop -/

/-- The page written by the loop is a prefix of the source rows. -/
lemma drainStreamingQuery_isPrefix (bs : Nat) (rows : List Nat) :
    ∀ n a, DrainStreamingQuery bs n a rows <+: rows := by
  induction rows with
  | nil => intro n a; simp [DrainStreamingQuery]
  | cons r rest ih =>
      intro n a
      simp only [DrainStreamingQuery]
      split
      · exact List.nil_prefix
      · split
        · exact List.nil_prefix
        · obtain ⟨t, ht⟩ := ih (n + 1) (a + r)
          exact ⟨t, by simp [ht]⟩

/-- Batch-size bound: the loop never writes past the configured batchSize. -/
lemma drainStreamingQuery_length (bs : Nat) (rows : List Nat) :
    ∀ n a, n ≤ bs → n + (DrainStreamingQuery bs n a rows).length ≤ bs := by
  induction rows with
  | nil => intro n a h; simpa [DrainStreamingQuery] using h
  | cons r rest ih =>
      intro n a h
      simp only [DrainStreamingQuery]
      split
      · simpa using h
      · split
        · simpa using h
        · have hlt : n < bs := by omega
          have := ih (n + 1) (a + r) (by omega)
          simp only [List.length_cons]
          omega

/-- Size bound: the accumulated serialized size never exceeds the 16 MiB
BSON limit. -/
lemma drainStreamingQuery_sum (bs : Nat) (rows : List Nat) :
    ∀ n a, a ≤ BSON_MAX_ALLOWED_SIZE →
      a + (DrainStreamingQuery bs n a rows).sum ≤ BSON_MAX_ALLOWED_SIZE := by
  induction rows with
  | nil => intro n a h; simpa [DrainStreamingQuery] using h
  | cons r rest ih =>
      intro n a h
      simp only [DrainStreamingQuery]
      split
      · simpa using h
      · split
        · simpa using h
        · have hle : a + r ≤ BSON_MAX_ALLOWED_SIZE := by omega
          have := ih (n + 1) (a + r) hle
          simp only [List.sum_cons]
          omega

/-- When the loop stops, one of the three stop conditions holds: the source
is exhausted, the batch cap is reached, or the next candidate row would
overflow the size limit. -/
lemma drainStreamingQuery_stop (bs : Nat) (rows : List Nat) :
    ∀ n a, n ≤ bs →
      (DrainStreamingQuery bs n a rows).length = rows.length ∨
      n + (DrainStreamingQuery bs n a rows).length = bs ∨
      (∃ r rest,
        rows.drop (DrainStreamingQuery bs n a rows).length = r :: rest ∧
        BSON_MAX_ALLOWED_SIZE < a + (DrainStreamingQuery bs n a rows).sum + r) := by
  induction rows with
  | nil => intro n a _; left; simp [DrainStreamingQuery]
  | cons r rest ih =>
      intro n a h
      simp only [DrainStreamingQuery]
      split
      · right; left
        simp only [List.length_nil]
        omega
      · split
        · right; right
          refine ⟨r, rest, by simp, ?_⟩
          simp only [List.length_nil, List.drop_zero, List.sum_nil]
          omega
        · have hlt : n < bs := by omega
          rcases ih (n + 1) (a + r) (by omega) with hexh | hbatch | hsize
          · left; simp [hexh]
          · right; left
            simp only [List.length_cons]
            omega
          · right; right
            obtain ⟨r', rest', hdrop, hsum⟩ := hsize
            refine ⟨r', rest', ?_, ?_⟩
            · simpa using hdrop
            · simp only [List.sum_cons]
              omega

/-- Minimality: the loop does not stop early.  Every row it wrote was
written at a point where neither the batch cap nor the size cap had been
reached. -/
lemma drainStreamingQuery_no_early_stop (bs : Nat) (rows : List Nat) :
    ∀ n a q r rest2, DrainStreamingQuery bs n a rows = q ++ r :: rest2 →
      n + q.length < bs ∧ a + q.sum + r ≤ BSON_MAX_ALLOWED_SIZE := by
  induction rows with
  | nil =>
      intro n a q r rest2 heq
      exact absurd heq (by simp [DrainStreamingQuery])
  | cons r0 rest ih =>
      intro n a q r rest2 heq
      simp only [DrainStreamingQuery] at heq
      split at heq
      · exact absurd heq (by simp)
      · split at heq
        · exact absurd heq (by simp)
        · cases q with
          | nil =>
              simp only [List.nil_append, List.cons.injEq] at heq
              obtain ⟨hr, _⟩ := heq
              subst hr
              constructor
              · simpa using (by omega : n < bs)
              · simp only [List.sum_nil]
                omega
          | cons q0 q' =>
              simp only [List.cons_append, List.cons.injEq] at heq
              obtain ⟨hq0, heq'⟩ := heq
              subst hq0
              have := ih (n + 1) (a + r0) q' r rest2 heq'
              constructor
              · simp only [List.length_cons]
                omega
              · simp only [List.sum_cons]
                omega

/-- **C3.** For every cursor page, the page write loop stops exactly when
one of three conditions first holds: the accumulated serialized size plus
one more candidate row would exceed the 16 MiB BSON limit, the configured
batchSize is reached, or the source is exhausted.  The page is a prefix of
the source rows, respects both caps, the stop is justified by one of the
three conditions, and no earlier stop was possible (every written row was
admitted under both caps). -/
theorem cursor_page_write_loop_contract (batchSize : Nat) (rows : List Nat) :
    DrainStreamingQuery batchSize 0 0 rows <+: rows ∧
    (DrainStreamingQuery batchSize 0 0 rows).length ≤ batchSize ∧
    (DrainStreamingQuery batchSize 0 0 rows).sum ≤ BSON_MAX_ALLOWED_SIZE ∧
    ((DrainStreamingQuery batchSize 0 0 rows).length = rows.length ∨
     (DrainStreamingQuery batchSize 0 0 rows).length = batchSize ∨
     (∃ r rest,
        rows.drop (DrainStreamingQuery batchSize 0 0 rows).length = r :: rest ∧
        BSON_MAX_ALLOWED_SIZE <
          (DrainStreamingQuery batchSize 0 0 rows).sum + r)) ∧
    (∀ q r rest2, DrainStreamingQuery batchSize 0 0 rows = q ++ r :: rest2 →
       q.length < batchSize ∧ q.sum + r ≤ BSON_MAX_ALLOWED_SIZE) := by
  refine ⟨drainStreamingQuery_isPrefix batchSize rows 0 0, ?_, ?_, ?_, ?_⟩
  · have := drainStreamingQuery_length batchSize rows 0 0 (Nat.zero_le _)
    omega
  · have := drainStreamingQuery_sum batchSize rows 0 0 (Nat.zero_le _)
    omega
  · have := drainStreamingQuery_stop batchSize rows 0 0 (Nat.zero_le _)
    rcases this with h | h | ⟨r, rest, hdrop, hsum⟩
    · exact Or.inl h
    · exact Or.inr (Or.inl (by omega))
    · exact Or.inr (Or.inr ⟨r, rest, hdrop, by omega⟩)
  · intro q r rest2 heq
    have := drainStreamingQuery_no_early_stop batchSize rows 0 0 q r rest2 heq
    omega

theorem cursor_page_write_loop_contract_witness :
    ([5] : List Nat).length < 2 ∧
      ([5] : List Nat).sum + 6 ≤ BSON_MAX_ALLOWED_SIZE :=
  (cursor_page_write_loop_contract 2 [5, 6, 7]).2.2.2.2 [5] 6 [] (by decide)

/-- **C1.** For every pipeline in which a `$lookup` stage is immediately
followed by a `$unwind` stage on the lookup's `as` field, the compiler's
fusion pass emits a single fused `LookupUnwind` stage (with the
`preserveNullAndEmptyArrays` option captured), and with
`preserveNullAndEmptyArrays = false` the fused stage's output is set-equal
to the output of the unfused two-stage pipeline; moreover the fusion pass
preserves the output of every pipeline exactly. -/
theorem lookupUnwind_fusion_refinement (foreign : List BDoc)
    (m : BDoc → BDoc → Bool) (a : String) (input : List BDoc) :
    (∀ (preserve : Bool) (rest : List PipelineStage),
      OptimizePipelineStages
          (PipelineStage.lookup m a :: PipelineStage.unwind a preserve :: rest) =
        PipelineStage.lookupUnwind m a preserve ::
          OptimizePipelineStages rest) ∧
    (∀ x : BDoc,
      x ∈ evalPipelineStage foreign (PipelineStage.lookupUnwind m a false) input ↔
      x ∈ evalPipeline foreign
            [PipelineStage.lookup m a, PipelineStage.unwind a false] input) ∧
    (∀ (stages : List PipelineStage) (inp : List BDoc),
      evalPipeline foreign (OptimizePipelineStages stages) inp =
        evalPipeline foreign stages inp) := by
  refine ⟨?_, ?_, optimizePipelineStages_sound foreign⟩
  · intro preserve rest
    simp [OptimizePipelineStages, CanInlineLookupWithUnwind]
  · intro x
    have heq :
        evalPipeline foreign
            [PipelineStage.lookup m a, PipelineStage.unwind a false] input =
          evalPipelineStage foreign (PipelineStage.lookupUnwind m a false) input := by
      simp only [evalPipeline, List.foldl_cons, List.foldl_nil,
        evalPipelineStage]
      exact unwind_lookup_eq_lookupUnwind foreign m a false input
    rw [heq]

/-- **C4.** For every projection specification, building the path tree fails
when both an `Included` leaf and an `Excluded` leaf occur in the same tree
unless `allow-inclusion-exclusion=true` was passed — and only then — with
the exception that `_id` may be excluded inside an otherwise pure-inclusion
tree without error. -/
theorem projection_tree_mixing_validation
    (entries : List (String × ProjectionSpecValue)) :
    (exceptIsError (BuildBsonPathTree false entries) = true ↔
      ((∃ e ∈ entries,
          projectionLeafKind e.2 = ProjectionLeafKind.included) ∧
       (∃ e ∈ entries,
          projectionLeafKind e.2 = ProjectionLeafKind.excluded ∧
            e.1 ≠ "_id"))) ∧
    exceptIsError (BuildBsonPathTree true entries) = false := by
  constructor
  · rw [BuildBsonPathTree,
      buildPathTreeValidate_error_iff entries
        { allowInclusionExclusion := false } rfl]
    simp [containsInclusionLeaf, containsNonIdExclusionLeaf,
      List.any_eq_true]
  · exact buildPathTreeValidate_allow_ok entries _ rfl

theorem projection_tree_mixing_validation_witness :
    exceptIsError (BuildBsonPathTree false
      [("a", ProjectionSpecValue.numVal 1),
       ("b", ProjectionSpecValue.numVal 0)]) = true :=
  (projection_tree_mixing_validation
      [("a", ProjectionSpecValue.numVal 1),
       ("b", ProjectionSpecValue.numVal 0)]).1.mpr
    ⟨⟨("a", ProjectionSpecValue.numVal 1), by decide, by decide⟩,
     ⟨("b", ProjectionSpecValue.numVal 0), by decide, by decide, by decide⟩⟩

/-- **C6.** For every document projected with a `$`-positional projection,
the positional operator is evaluated at most once per document, and (when
the projection state starts un-evaluated, as at construction) exactly at the
outermost array in the source path — the match index coming from the query
evaluator supplied at projection-state construction; once the
`isPositionalAlreadyEvaluated` flag is set, no further evaluation occurs. -/
theorem positional_evaluated_once_at_outermost_array
    (st : ProjectDocumentState) (levels : List PathLevelKind) :
    (positionalEvalDepths st levels).length ≤ 1 ∧
    (st.isPositionalAlreadyEvaluated = true →
      positionalEvalDepths st levels = []) ∧
    (st.isPositionalAlreadyEvaluated = false →
      positionalEvalDepths st levels = (firstArrayDepth levels).toList) := by
  have hdone : ∀ (lvls : List PathLevelKind) (s : ProjectDocumentState),
      s.isPositionalAlreadyEvaluated = true →
      positionalEvalDepths s lvls = [] := by
    intro lvls
    induction lvls with
    | nil => intro s _; rfl
    | cons lvl rest ih =>
        intro s hs
        cases lvl with
        | docLevel => simp [positionalEvalDepths, ih s hs]
        | arrayLevel => simp [positionalEvalDepths, hs, ih s hs]
  have hfresh : ∀ (lvls : List PathLevelKind) (s : ProjectDocumentState),
      s.isPositionalAlreadyEvaluated = false →
      positionalEvalDepths s lvls = (firstArrayDepth lvls).toList := by
    intro lvls
    induction lvls with
    | nil => intro s _; rfl
    | cons lvl rest ih =>
        intro s hs
        cases lvl with
        | docLevel =>
            simp only [positionalEvalDepths, firstArrayDepth, ih s hs]
            cases firstArrayDepth rest <;> simp
        | arrayLevel =>
            simp only [positionalEvalDepths, hs, Bool.false_eq_true, if_false,
              firstArrayDepth]
            rw [hdone rest { s with isPositionalAlreadyEvaluated := true } rfl]
            simp
  refine ⟨?_, hdone levels st, hfresh levels st⟩
  cases hflag : st.isPositionalAlreadyEvaluated
  · rw [hfresh levels st hflag]
    cases firstArrayDepth levels <;> simp
  · rw [hdone levels st hflag]
    simp

theorem positional_evaluated_once_at_outermost_array_witness :
    positionalEvalDepths {}
        [PathLevelKind.docLevel, PathLevelKind.arrayLevel,
         PathLevelKind.arrayLevel] =
      (firstArrayDepth
        [PathLevelKind.docLevel, PathLevelKind.arrayLevel,
         PathLevelKind.arrayLevel]).toList :=
  (positional_evaluated_once_at_outermost_array {}
      [PathLevelKind.docLevel, PathLevelKind.arrayLevel,
       PathLevelKind.arrayLevel]).2.2 rfl

end DocumentDB
